import Mathlib

/-!
Verification of the odds-to-pick derivation, team normalization and the
key-based join of the MLB prediction pipeline (src/app.py).

Real-number arithmetic of the source is modeled exactly by the rationals;
Python integers are modeled by Int, fallible parsing by Option.
-/

/-- Embedding of `american_to_implied` (src/app.py, lines 236-241):
for negative odds the probability is (-ml)/((-ml)+100), otherwise 100/(ml+100). -/
def american_to_implied (ml : ℚ) : ℚ :=
  if ml < 0 then (-ml) / ((-ml) + 100) else 100 / (ml + 100)

/-- Embedding of `remove_vig` (src/app.py, lines 243-247). -/
def remove_vig (p_a p_b : ℚ) : ℚ × ℚ :=
  let s := p_a + p_b
  if s = 0 then (0.5, 0.5) else (p_a / s, p_b / s)

/-- Python `round`: round half to even (used on the confidence score). -/
def pyRound (q : ℚ) : ℤ :=
  if q - ⌊q⌋ < 1/2 then ⌊q⌋
  else if 1/2 < q - ⌊q⌋ then ⌊q⌋ + 1
  else if 2 ∣ ⌊q⌋ then ⌊q⌋ else ⌊q⌋ + 1

/-- Embedding of `edge_to_conf_1_10` (src/app.py, lines 249-254):
negative edges clamp to 0, score = 3 + (edge/0.05)*1.5, result clamped to [1,10]
by `max(1, min(10, round(score)))`. -/
def edge_to_conf_1_10 (edge_prob : ℚ) : ℤ :=
  max 1 (min 10 (pyRound (3 + (if edge_prob < 0 then 0 else edge_prob) / 0.05 * 1.5)))

/-- Embedding of `pick_moneyline_from_market` (src/app.py, lines 256-267). -/
def pick_moneyline_from_market (ml_home ml_away : ℚ) : String × ℤ × ℚ :=
  let p_home := american_to_implied ml_home
  let p_away := american_to_implied ml_away
  let nv := remove_vig p_home p_away
  let p_home_nv := nv.1
  let p_away_nv := nv.2
  if p_home_nv ≥ p_away_nv then
    ("HOME ML", edge_to_conf_1_10 |p_home_nv - 0.5|, p_home_nv)
  else
    ("AWAY ML", edge_to_conf_1_10 |p_away_nv - 0.5|, p_away_nv)

/-- The total pick label: the source builds the strings "No Edge",
"Over {total}" and "Under {total}"; the numeric part is carried explicitly. -/
inductive TotalPick where
  | noEdge : TotalPick
  | over : ℚ → TotalPick
  | under : ℚ → TotalPick
deriving DecidableEq, Repr

/-- Embedding of `pick_total_from_market` (src/app.py, lines 269-279). -/
def pick_total_from_market (total_num over_price under_price : ℚ) : TotalPick × ℤ :=
  let p_over := american_to_implied over_price
  let p_under := american_to_implied under_price
  let nv := remove_vig p_over p_under
  let p_over_nv := nv.1
  let p_under_nv := nv.2
  let edge := |p_over_nv - 0.5|
  if edge < 0.02 then (TotalPick.noEdge, 2)
  else if p_over_nv > p_under_nv then (TotalPick.over total_num, edge_to_conf_1_10 edge)
  else (TotalPick.under total_num, edge_to_conf_1_10 edge)

/-- Embedding of `pick_runline_from_market` (src/app.py, lines 281-285). -/
def pick_runline_from_market (fav_prob_nv : ℚ) : String × ℤ :=
  if fav_prob_nv ≥ 0.62 then
    ("FAV -1.5", edge_to_conf_1_10 (fav_prob_nv - 0.5))
  else
    ("DOG +1.5", max 2 (edge_to_conf_1_10 (0.62 - fav_prob_nv) - 1))

/-! ### Team normalization (src/app.py, lines 90-115)

Python strings are modeled as `String`; `str.strip` and `str.upper` are
modeled on the ASCII range, which covers every team code and alias. -/

/-- The lowercase ASCII letters, the domain on which upper-casing acts. -/
def lcChars : List Char := ['a','b','c','d','e','f','g','h','i','j','k','l','m',
  'n','o','p','q','r','s','t','u','v','w','x','y','z']

/-- Model of Python `str.upper` on one character: lowercase ASCII letters move
down by 32 code points, everything else is unchanged. -/
def pyUpperChar (c : Char) : Char :=
  if c ∈ lcChars then Char.ofNat (c.toNat - 32) else c

/-- Model of Python `str.upper` on a character list. -/
def pyUpper (s : List Char) : List Char := s.map pyUpperChar

/-- The whitespace characters removed by Python `str.strip` (ASCII). -/
def pyIsSpace (c : Char) : Bool :=
  c == ' ' || c == '\t' || c == '\n' || c == '\r' || c == '\x0b' || c == '\x0c'

/-- Model of Python `str.strip`: drop whitespace from both ends. -/
def pyStrip (s : List Char) : List Char :=
  ((s.dropWhile pyIsSpace).reverse.dropWhile pyIsSpace).reverse

/-- The alias dict literal of `normalize_team` (src/app.py, lines 95-114) in
source order; `alias.get(t, t)` is modeled by `List.lookup` plus `getD`. -/
def aliasTable : List (String × String) := [
  ("ARI", "AZ"), ("D-BACKS", "AZ"), ("SFG", "SF"), ("SDP", "SD"), ("TBR", "TB"),
  ("CWS", "CHW"), ("WAS", "WSH"), ("KCR", "KC"), ("OAK", "ATH"),
  ("AZ", "AZ"), ("SF", "SF"), ("SD", "SD"), ("TB", "TB"), ("CHW", "CHW"),
  ("NYY", "NYY"), ("NYM", "NYM"), ("LAA", "LAA"), ("LAD", "LAD"),
  ("CHC", "CHC"), ("MIL", "MIL"), ("PIT", "PIT"), ("CIN", "CIN"),
  ("STL", "STL"), ("MIA", "MIA"), ("BOS", "BOS"), ("BAL", "BAL"), ("HOU", "HOU"),
  ("SEA", "SEA"), ("TEX", "TEX"), ("PHI", "PHI"), ("WSH", "WSH"), ("TOR", "TOR"),
  ("ATL", "ATL"), ("CLE", "CLE"), ("DET", "DET"), ("MIN", "MIN"), ("KC", "KC"),
  ("COL", "COL"), ("ATH", "ATH"), ("OAK A\x27S", "ATH")]

/-- Embedding of `normalize_team` (src/app.py, lines 90-115): a falsy (empty)
input is returned unchanged; otherwise strip, uppercase, then look the result
up in the alias table, unknown codes passing through. -/
def normalize_team (t : String) : String :=
  if t = "" then t
  else
    (aliasTable.lookup (String.mk (pyUpper (pyStrip t.data)))).getD
      (String.mk (pyUpper (pyStrip t.data)))

/-! ### The key-based join of odds onto the slate (src/app.py, lines 288-409)

The Notion upserts, console printing and CSV writing of the source are
external collaborators; the embedding models the pure join that produces
the list of prediction rows. -/

/-- Embedding of `make_key` (src/app.py, lines 118-119). -/
def make_key (game_date_iso away home : String) : String :=
  game_date_iso ++ "|" ++ away ++ "|" ++ home

/-- Python `str.strip` lifted to `String`. -/
def pyStripS (s : String) : String := String.mk (pyStrip s.data)

/-- One row of the slate CSV as read back in odds-ingest mode; a missing
column is the empty string (the Python `or ""` default). -/
structure SlateCsvRow where
  game_date : String
  away : String
  home : String
  start_et : String
  away_p : String
  home_p : String
  box_link : String
deriving DecidableEq, Repr

/-- One row of the odds CSV after numeric parsing: `none` in a moneyline
field models an unparseable value (the source then skips the row), `none`
in total models an absent total, `none` in a price models an absent price
(the source substitutes -110.0). -/
structure OddsCsvRow where
  game_date : String
  away : String
  home : String
  ml_home : Option ℚ
  ml_away : Option ℚ
  total : Option ℚ
  over_price : Option ℚ
  under_price : Option ℚ
deriving DecidableEq, Repr

/-- The market data stored in `odds_by_key` (src/app.py, lines 352-355). -/
structure OddsData where
  ml_home : ℚ
  ml_away : ℚ
  total : Option ℚ
  over_price : ℚ
  under_price : ℚ
deriving DecidableEq, Repr

/-- A prediction row: slate fields plus market fields and picks; `none` and
`""` are the empty placeholders of the source dicts. -/
structure PredRow where
  game_date : String
  away : String
  home : String
  start_et : String
  away_p : String
  home_p : String
  box_link : String
  ml_home : Option ℚ
  ml_away : Option ℚ
  total : Option ℚ
  pick_ml : String
  conf_ml : Option ℤ
  pick_tot : Option TotalPick
  conf_tot : Option ℤ
  pick_rl : String
  conf_rl : Option ℤ
  notes : String
  sources : String
deriving DecidableEq, Repr

/-- Loading one slate row (src/app.py, lines 300-322): teams stripped and
normalized, market fields and picks starting empty. -/
def loadSlateRow (r : SlateCsvRow) : PredRow :=
  { game_date := pyStripS r.game_date
    away := normalize_team (pyStripS r.away)
    home := normalize_team (pyStripS r.home)
    start_et := r.start_et
    away_p := r.away_p
    home_p := r.home_p
    box_link := r.box_link
    ml_home := none, ml_away := none, total := none
    pick_ml := "", conf_ml := none
    pick_tot := none, conf_tot := none
    pick_rl := "", conf_rl := none
    notes := "Joined slate + odds"
    sources := "MLB Stats API + Odds CSV" }

/-- The key under which a prediction row is indexed (src/app.py, line 324). -/
def predKey (r : PredRow) : String := make_key r.game_date r.away r.home

/-- The key of a slate CSV row after loading. -/
def slateKey (r : SlateCsvRow) : String := predKey (loadSlateRow r)

/-- Python dict insertion: overwrite in place when the key exists, append
otherwise. -/
def dictInsert {α : Type} (k : String) (v : α) : List (String × α) → List (String × α)
  | [] => [(k, v)]
  | p :: rest => if p.1 = k then (k, v) :: rest else p :: dictInsert k v rest

/-- Parsing one odds CSV row (src/app.py, lines 330-355): rows with a falsy
date or team, or an unparseable moneyline, are skipped; absent prices
default to -110. -/
def parseOddsRow (r : OddsCsvRow) : Option (String × OddsData) :=
  let gd := pyStripS r.game_date
  let away := normalize_team (pyStripS r.away)
  let home := normalize_team (pyStripS r.home)
  if gd = "" ∨ away = "" ∨ home = "" then none
  else
    match r.ml_home, r.ml_away with
    | some mh, some ma =>
        some (make_key gd away home,
          { ml_home := mh, ml_away := ma, total := r.total,
            over_price := r.over_price.getD (-110),
            under_price := r.under_price.getD (-110) })
    | _, _ => none

/-- The odds dictionary keyed by game key (src/app.py, lines 327-355). -/
def odds_by_key (odds : List OddsCsvRow) : List (String × OddsData) :=
  odds.foldl (fun d r =>
    match parseOddsRow r with
    | none => d
    | some kv => dictInsert kv.1 kv.2 d) []

/-- Deriving one output row (src/app.py, lines 360-404): with no odds the
base row is kept as is; otherwise market fields and the three picks are
filled. -/
def joinRow (base : PredRow) (odds : Option OddsData) : PredRow :=
  match odds with
  | none => base
  | some o =>
    let ml := pick_moneyline_from_market o.ml_home o.ml_away
    let pick_ml := if ml.1 = "HOME ML" then base.home ++ " ML" else base.away ++ " ML"
    let tot :=
      match o.total with
      | some t => pick_total_from_market t o.over_price o.under_price
      | none => (TotalPick.noEdge, 2)
    let p_home_nv := (remove_vig (american_to_implied o.ml_home) (american_to_implied o.ml_away)).1
    let p_away_nv := (remove_vig (american_to_implied o.ml_home) (american_to_implied o.ml_away)).2
    let rl := pick_runline_from_market (max p_home_nv p_away_nv)
    let rl_str :=
      if rl.1 = "FAV -1.5" ∧ p_away_nv ≤ p_home_nv then base.home ++ " -1.5"
      else if rl.1 = "FAV -1.5" ∧ p_home_nv < p_away_nv then base.away ++ " -1.5"
      else if p_away_nv ≤ p_home_nv then base.away ++ " +1.5"
      else base.home ++ " +1.5"
    { base with
      ml_home := some o.ml_home, ml_away := some o.ml_away, total := o.total,
      pick_ml := pick_ml, conf_ml := some ml.2.1,
      pick_tot := some tot.1, conf_tot := some tot.2,
      pick_rl := rl_str, conf_rl := some rl.2 }

/-- Embedding of `ingest_odds_and_compute_picks` (src/app.py, lines 288-409):
load the slate, index it by key, index the odds by key, then drive the
output from the slate keys only. -/
def ingest_odds_and_compute_picks (slateCsv : List SlateCsvRow)
    (oddsCsv : List OddsCsvRow) : List PredRow :=
  let slate_rows := slateCsv.map loadSlateRow
  let slate_by_key := slate_rows.foldl (fun d r => dictInsert (predKey r) r d) []
  let odds := odds_by_key oddsCsv
  slate_by_key.map (fun kv => joinRow kv.2 (odds.lookup kv.1))

/-- The concrete slate row of the C2 witness: game key 2025-08-13|AAA|BBB. -/
def wSlateRow : SlateCsvRow :=
  { game_date := "2025-08-13", away := "AAA", home := "BBB",
    start_et := "7:05 PM", away_p := "", home_p := "", box_link := "" }

/-- The concrete odds row of the C2 witness: its away team is empty, so the
source skips it and no quote matches the slate key. -/
def wOddsRow : OddsCsvRow :=
  { game_date := "2025-08-13", away := "", home := "DDD",
    ml_home := some (-150), ml_away := some 130, total := some 8.5,
    over_price := none, under_price := none }

/-! ### Helper lemmas about the rounding and confidence functions -/

lemma pyRound_lower (q : ℚ) : ⌊q⌋ ≤ pyRound q := by
  unfold pyRound
  split_ifs <;> omega

lemma pyRound_upper (q : ℚ) : pyRound q ≤ ⌊q⌋ + 1 := by
  unfold pyRound
  split_ifs <;> omega

lemma pyRound_mono {a b : ℚ} (h : a ≤ b) : pyRound a ≤ pyRound b := by
  have hf : ⌊a⌋ ≤ ⌊b⌋ := Int.floor_mono h
  rcases eq_or_lt_of_le hf with heq | hlt
  · have hfr : a - (⌊a⌋ : ℚ) ≤ b - (⌊a⌋ : ℚ) := by linarith
    unfold pyRound
    rw [← heq]
    split_ifs <;> first | omega | linarith
  · have h1 := pyRound_upper a
    have h2 := pyRound_lower b
    omega

lemma div_mul_const (x : ℚ) : x / 0.05 * 1.5 = 30 * x := by
  rw [show (0.05 : ℚ) = 1/20 from by norm_num, show (1.5 : ℚ) = 3/2 from by norm_num]
  ring

lemma edge_clamp_nonneg (e : ℚ) : (0 : ℚ) ≤ (if e < 0 then 0 else e) := by
  split_ifs with h
  · exact le_refl 0
  · exact not_lt.mp h

lemma edge_to_conf_ge_three (e : ℚ) : 3 ≤ edge_to_conf_1_10 e := by
  unfold edge_to_conf_1_10
  have h0 : (0 : ℚ) ≤ (if e < 0 then 0 else e) := edge_clamp_nonneg e
  have hnn : (0 : ℚ) ≤ (if e < 0 then 0 else e) / 0.05 * 1.5 :=
    mul_nonneg (div_nonneg h0 (by norm_num)) (by norm_num)
  have hs : (3 : ℚ) ≤ 3 + (if e < 0 then 0 else e) / 0.05 * 1.5 := by linarith
  have hfl : (3 : ℤ) ≤ ⌊3 + (if e < 0 then 0 else e) / 0.05 * 1.5⌋ :=
    Int.le_floor.mpr (by exact_mod_cast hs)
  have hr := pyRound_lower (3 + (if e < 0 then 0 else e) / 0.05 * 1.5)
  have h3 : (3 : ℤ) ≤ min 10 (pyRound (3 + (if e < 0 then 0 else e) / 0.05 * 1.5)) :=
    le_min (by norm_num) (by omega)
  exact le_trans h3 (le_max_right 1 _)

lemma edge_to_conf_le_ten (e : ℚ) : edge_to_conf_1_10 e ≤ 10 := by
  unfold edge_to_conf_1_10
  exact max_le (by norm_num) (min_le_left _ _)

lemma edge_to_conf_mono {a b : ℚ} (h : a ≤ b) :
    edge_to_conf_1_10 a ≤ edge_to_conf_1_10 b := by
  unfold edge_to_conf_1_10
  have hab : (if a < 0 then 0 else a) ≤ (if b < 0 then 0 else b) := by
    split_ifs <;> linarith
  have hsc : 3 + (if a < 0 then 0 else a) / 0.05 * 1.5 ≤
      3 + (if b < 0 then 0 else b) / 0.05 * 1.5 := by
    have e1 := div_mul_const (if a < 0 then 0 else a)
    have e2 := div_mul_const (if b < 0 then 0 else b)
    linarith
  exact max_le_max (le_refl 1) (min_le_min (le_refl 10) (pyRound_mono hsc))

lemma edge_to_conf_zero : edge_to_conf_1_10 0 = 3 := by
  norm_num [edge_to_conf_1_10, pyRound]

/-! ### Helper lemmas about the moneyline derivation -/

lemma pick_moneyline_eq_home {mh ma : ℚ}
    (h : (remove_vig (american_to_implied mh) (american_to_implied ma)).2 ≤
        (remove_vig (american_to_implied mh) (american_to_implied ma)).1) :
    pick_moneyline_from_market mh ma =
      ("HOME ML",
       edge_to_conf_1_10
         |(remove_vig (american_to_implied mh) (american_to_implied ma)).1 - 0.5|,
       (remove_vig (american_to_implied mh) (american_to_implied ma)).1) := by
  simp only [pick_moneyline_from_market]
  rw [if_pos h]

lemma pick_moneyline_eq_away {mh ma : ℚ}
    (h : (remove_vig (american_to_implied mh) (american_to_implied ma)).1 <
        (remove_vig (american_to_implied mh) (american_to_implied ma)).2) :
    pick_moneyline_from_market mh ma =
      ("AWAY ML",
       edge_to_conf_1_10
         |(remove_vig (american_to_implied mh) (american_to_implied ma)).2 - 0.5|,
       (remove_vig (american_to_implied mh) (american_to_implied ma)).2) := by
  simp only [pick_moneyline_from_market]
  rw [if_neg (not_le.mpr h)]

lemma remove_vig_tie_half (pa pb : ℚ)
    (h : (remove_vig pa pb).1 = (remove_vig pa pb).2) :
    (remove_vig pa pb).1 = 1/2 := by
  simp only [remove_vig] at h ⊢
  split_ifs at h ⊢ with hs
  · norm_num
  · dsimp only at h ⊢
    have hpp : pa = pb := by
      field_simp at h
      exact h
    rw [← hpp] at hs ⊢
    rw [div_eq_iff hs]
    ring

/-! ### Generic dropWhile lemmas used for strip idempotence -/

lemma length_dropWhile_le2 {α : Type} (p : α → Bool) (l : List α) :
    (l.dropWhile p).length ≤ l.length := by
  induction l with
  | nil => exact le_refl 0
  | cons a t ih =>
    by_cases h : p a
    · rw [List.dropWhile_cons_of_pos h, List.length_cons]; omega
    · rw [List.dropWhile_cons_of_neg h]

lemma dropWhile_idem {α : Type} (p : α → Bool) (l : List α) :
    (l.dropWhile p).dropWhile p = l.dropWhile p := by
  induction l with
  | nil => rfl
  | cons a t ih =>
    by_cases h : p a
    · rw [List.dropWhile_cons_of_pos h]; exact ih
    · rw [List.dropWhile_cons_of_neg h, List.dropWhile_cons_of_neg h]

lemma head_not_of_dropWhile_self {α : Type} (p : α → Bool) (l : List α)
    (h : l.dropWhile p = l) : ∀ a, l.head? = some a → p a = false := by
  intro a ha
  cases l with
  | nil => simp at ha
  | cons b t =>
    rw [List.head?_cons, Option.some.injEq] at ha
    subst ha
    by_contra hpa
    rw [Bool.not_eq_false] at hpa
    rw [List.dropWhile_cons_of_pos hpa] at h
    have hlen := congrArg List.length h
    simp only [List.length_cons] at hlen
    have hle := length_dropWhile_le2 p t
    omega

lemma dropWhile_self_of_head {α : Type} (p : α → Bool) (l : List α)
    (h : ∀ a, l.head? = some a → p a = false) : l.dropWhile p = l := by
  cases l with
  | nil => rfl
  | cons b t => exact List.dropWhile_cons_of_neg (by simp [h b rfl])

lemma getLast?_dropWhile {α : Type} (p : α → Bool) (l : List α)
    (h : l.dropWhile p ≠ []) : (l.dropWhile p).getLast? = l.getLast? := by
  induction l with
  | nil => simp at h
  | cons a t ih =>
    by_cases hp : p a
    · rw [List.dropWhile_cons_of_pos hp] at h ⊢
      rw [ih h]
      cases t with
      | nil => simp at h
      | cons b u => rw [List.getLast?_cons_cons]
    · rw [List.dropWhile_cons_of_neg hp]

/-! ### Strip and upper interaction -/

lemma pyStrip_dropWhile (X : List Char) :
    (pyStrip X).dropWhile pyIsSpace = pyStrip X := by
  apply dropWhile_self_of_head
  intro a ha
  unfold pyStrip at ha
  rw [List.head?_reverse] at ha
  have hne : (X.dropWhile pyIsSpace).reverse.dropWhile pyIsSpace ≠ [] := by
    intro h0; rw [h0] at ha; simp at ha
  rw [getLast?_dropWhile pyIsSpace _ hne, List.getLast?_reverse] at ha
  exact head_not_of_dropWhile_self pyIsSpace _ (dropWhile_idem pyIsSpace X) a ha

lemma pyStrip_reverse_dropWhile (X : List Char) :
    (pyStrip X).reverse.dropWhile pyIsSpace = (pyStrip X).reverse := by
  unfold pyStrip
  rw [List.reverse_reverse]
  exact dropWhile_idem pyIsSpace _

lemma pyStrip_self_of (l : List Char) (h1 : l.dropWhile pyIsSpace = l)
    (h2 : l.reverse.dropWhile pyIsSpace = l.reverse) : pyStrip l = l := by
  unfold pyStrip
  rw [h1, h2, List.reverse_reverse]

lemma pyStrip_idem (X : List Char) : pyStrip (pyStrip X) = pyStrip X :=
  pyStrip_self_of _ (pyStrip_dropWhile X) (pyStrip_reverse_dropWhile X)

lemma pyUpperChar_idem (c : Char) : pyUpperChar (pyUpperChar c) = pyUpperChar c := by
  by_cases h : c ∈ lcChars
  · have hfix : ∀ d ∈ lcChars, Char.ofNat (d.toNat - 32) ∉ lcChars := by decide
    unfold pyUpperChar
    rw [if_pos h, if_neg (hfix c h)]
  · unfold pyUpperChar
    rw [if_neg h, if_neg h]

lemma pyIsSpace_pyUpperChar (c : Char) : pyIsSpace (pyUpperChar c) = pyIsSpace c := by
  by_cases h : c ∈ lcChars
  · have h1 : ∀ d ∈ lcChars, pyIsSpace (Char.ofNat (d.toNat - 32)) = false := by decide
    have h2 : ∀ d ∈ lcChars, pyIsSpace d = false := by decide
    unfold pyUpperChar
    rw [if_pos h, h1 c h, h2 c h]
  · unfold pyUpperChar
    rw [if_neg h]

lemma pyUpper_idem (l : List Char) : pyUpper (pyUpper l) = pyUpper l := by
  unfold pyUpper
  rw [List.map_map]
  have hcomp : pyUpperChar ∘ pyUpperChar = pyUpperChar := funext pyUpperChar_idem
  rw [hcomp]

lemma dropWhile_pyUpper (l : List Char) :
    (pyUpper l).dropWhile pyIsSpace = pyUpper (l.dropWhile pyIsSpace) := by
  unfold pyUpper
  rw [List.dropWhile_map]
  have hcomp : pyIsSpace ∘ pyUpperChar = pyIsSpace := funext pyIsSpace_pyUpperChar
  rw [hcomp]

lemma pyStrip_pyUpper_pyStrip (X : List Char) :
    pyStrip (pyUpper (pyStrip X)) = pyUpper (pyStrip X) := by
  apply pyStrip_self_of
  · rw [dropWhile_pyUpper, pyStrip_dropWhile]
  · have hrev : (pyUpper (pyStrip X)).reverse = pyUpper ((pyStrip X).reverse) := by
      unfold pyUpper
      exact (List.map_reverse _ _).symm
    rw [hrev, dropWhile_pyUpper, pyStrip_reverse_dropWhile]

/-! ### Idempotence of normalize_team -/

lemma normalize_team_eq (t : String) (ht : t ≠ "") :
    normalize_team t =
      (aliasTable.lookup (String.mk (pyUpper (pyStrip t.data)))).getD
        (String.mk (pyUpper (pyStrip t.data))) := by
  unfold normalize_team
  rw [if_neg ht]

lemma normalize_fix_vals : ∀ p ∈ aliasTable, normalize_team p.2 = p.2 := by decide

/-! ### Dictionary lemmas for the join -/

lemma dictInsert_of_not_mem {α : Type} (k : String) (v : α) :
    ∀ d : List (String × α), k ∉ d.map Prod.fst →
      dictInsert k v d = d ++ [(k, v)] := by
  intro d
  induction d with
  | nil => intro _; rfl
  | cons p rest ih =>
    intro h
    rw [List.map_cons] at h
    have h1 : p.1 ≠ k := fun he => h (he ▸ List.mem_cons_self _ _)
    have h2 : k ∉ rest.map Prod.fst := fun hm => h (List.mem_cons_of_mem _ hm)
    simp [dictInsert, h1, ih h2]

lemma foldl_dictInsert_nodup :
    ∀ (l : List PredRow) (d : List (String × PredRow)),
      (∀ r ∈ l, predKey r ∉ d.map Prod.fst) →
      (l.map predKey).Nodup →
      l.foldl (fun d r => dictInsert (predKey r) r d) d =
        d ++ l.map (fun r => (predKey r, r)) := by
  intro l
  induction l with
  | nil => intro d _ _; simp
  | cons a t ih =>
    intro d hd hnd
    rw [List.foldl_cons, dictInsert_of_not_mem _ _ _ (hd a (List.mem_cons_self a t))]
    rw [List.map_cons, List.nodup_cons] at hnd
    rw [ih (d ++ [(predKey a, a)]) ?hfresh hnd.2]
    · simp
    case hfresh =>
      intro r hr hmem
      rw [List.map_append] at hmem
      rcases List.mem_append.mp hmem with hmem | hmem
      · exact hd r (List.mem_cons_of_mem a hr) hmem
      · simp only [List.map_cons, List.map_nil, List.mem_singleton] at hmem
        exact hnd.1 (hmem ▸ List.mem_map_of_mem predKey hr)

lemma lookup_dictInsert_ne {α : Type} (k k2 : String) (v : α) (hne : k2 ≠ k) :
    ∀ d : List (String × α),
      List.lookup k (dictInsert k2 v d) = List.lookup k d := by
  have hbeq : (k == k2) = false := by
    rw [beq_eq_false_iff_ne]
    exact Ne.symm hne
  intro d
  induction d with
  | nil =>
    simp [dictInsert, List.lookup_cons, hbeq]
  | cons p rest ih =>
    obtain ⟨pk, pv⟩ := p
    by_cases hp : pk = k2
    · subst hp
      simp [dictInsert, List.lookup_cons, hbeq]
    · simp [dictInsert, hp, List.lookup_cons, ih]

lemma odds_by_key_lookup_none (oddsCsv : List OddsCsvRow) (k : String)
    (h : ∀ o ∈ oddsCsv, ∀ kv, parseOddsRow o = some kv → kv.1 ≠ k) :
    List.lookup k (odds_by_key oddsCsv) = none := by
  suffices hgen : ∀ (l : List OddsCsvRow) (d : List (String × OddsData)),
      (∀ o ∈ l, ∀ kv, parseOddsRow o = some kv → kv.1 ≠ k) →
      List.lookup k d = none →
      List.lookup k (l.foldl (fun d r =>
        match parseOddsRow r with
        | none => d
        | some kv => dictInsert kv.1 kv.2 d) d) = none by
    exact hgen oddsCsv [] h rfl
  intro l
  induction l with
  | nil => intro d _ hd; exact hd
  | cons a t ih =>
    intro d hl hd
    rw [List.foldl_cons]
    rcases hp : parseOddsRow a with _ | kv
    · simp only [hp]
      exact ih d (fun o ho => hl o (List.mem_cons_of_mem _ ho)) hd
    · simp only [hp]
      refine ih _ (fun o ho => hl o (List.mem_cons_of_mem _ ho)) ?_
      rw [lookup_dictInsert_ne k kv.1 kv.2 (hl a (List.mem_cons_self _ _) kv hp) d]
      exact hd

lemma predKey_joinRow (base : PredRow) (o : Option OddsData) :
    predKey (joinRow base o) = predKey base := by
  cases o <;> rfl

lemma ingest_eq_map (slateCsv : List SlateCsvRow) (oddsCsv : List OddsCsvRow)
    (hnd : (slateCsv.map slateKey).Nodup) :
    ingest_odds_and_compute_picks slateCsv oddsCsv =
      slateCsv.map (fun s =>
        joinRow (loadSlateRow s)
          (List.lookup (slateKey s) (odds_by_key oddsCsv))) := by
  simp only [ingest_odds_and_compute_picks]
  rw [foldl_dictInsert_nodup (slateCsv.map loadSlateRow) [] (by simp)
    (by simpa [List.map_map, Function.comp, slateKey] using hnd)]
  rw [List.nil_append, List.map_map, List.map_map]
  rfl

lemma countP_key_eq_one {β : Type} (key : β → String) (l : List β)
    (hnd : (l.map key).Nodup) (s : β) (hs : s ∈ l) :
    l.countP (fun x => key x == key s) = 1 := by
  have h1 : (l.map key).count (key s) = l.countP (fun x => key x == key s) := by
    rw [List.count_eq_countP, List.countP_map]
    rfl
  rw [← h1]
  exact List.count_eq_one_of_mem hnd (List.mem_map_of_mem key hs)

/-! ### Claim theorems about the odds math -/

/-- C1 (code_bug evidence): the spec and the docstring of `edge_to_conf_1_10` state
that an edge of 0.15 (and anything above) yields confidence 10, but the code
computes round(3 + (0.15/0.05)*1.5) = round(7.5) = 8; correspondingly the
run-line scenario with favorite no-vig probability 0.65 yields confidence 8,
not the 10 the spec claims. -/
theorem edge_to_conf_at_fifteen_points :
    edge_to_conf_1_10 0.15 = 8 ∧ edge_to_conf_1_10 0.15 ≠ 10 ∧
    pick_runline_from_market 0.65 = ("FAV -1.5", 8) := by
  refine ⟨?_, ?_, ?_⟩
  · norm_num [edge_to_conf_1_10, pyRound]
  · norm_num [edge_to_conf_1_10, pyRound]
  · norm_num [pick_runline_from_market, edge_to_conf_1_10, pyRound]

/-- C7: `edge_to_conf_1_10` is monotonically non-decreasing, always yields an
integer in [1,10], treats negative edges as zero, and maps 0 to 3. -/
theorem edge_to_conf_monotone_range (e eBig : ℚ) :
    (e ≤ eBig → edge_to_conf_1_10 e ≤ edge_to_conf_1_10 eBig) ∧
    1 ≤ edge_to_conf_1_10 e ∧ edge_to_conf_1_10 e ≤ 10 ∧
    (e < 0 → edge_to_conf_1_10 e = edge_to_conf_1_10 0) ∧
    edge_to_conf_1_10 0 = 3 := by
  refine ⟨fun h => edge_to_conf_mono h,
    le_trans (by norm_num) (edge_to_conf_ge_three e),
    edge_to_conf_le_ten e, fun hneg => ?_, edge_to_conf_zero⟩
  unfold edge_to_conf_1_10
  rw [if_pos hneg, if_neg (lt_irrefl 0)]

/-- Witness for C7 at the concrete pair (-1, 0). -/
theorem edge_to_conf_monotone_range_witness :
    edge_to_conf_1_10 (-1) ≤ edge_to_conf_1_10 0 ∧
    edge_to_conf_1_10 (-1) = edge_to_conf_1_10 0 := by
  have h := edge_to_conf_monotone_range (-1) 0
  exact ⟨h.1 (by norm_num), h.2.2.2.1 (by norm_num)⟩

/-- C9 (implicit): `edge_to_conf_1_10` always lands in [3,10]; the lower clamp
to 1 is never binding and the values 1 and 2 are unattainable. -/
theorem edge_to_conf_never_below_three (e : ℚ) :
    3 ≤ edge_to_conf_1_10 e ∧ edge_to_conf_1_10 e ≤ 10 ∧
    edge_to_conf_1_10 e ≠ 1 ∧ edge_to_conf_1_10 e ≠ 2 := by
  have h3 := edge_to_conf_ge_three e
  have h10 := edge_to_conf_le_ten e
  exact ⟨h3, h10, by omega, by omega⟩

/-- C6: `american_to_implied` computes the documented branch formulas and, for
every nonzero odds value, lands strictly between 0 and 1. -/
theorem american_to_implied_spec (o : ℚ) :
    (o < 0 → american_to_implied o = (-o) / ((-o) + 100)) ∧
    (0 ≤ o → american_to_implied o = 100 / (o + 100)) ∧
    (o ≠ 0 → 0 < american_to_implied o ∧ american_to_implied o < 1) := by
  refine ⟨fun h => ?_, fun h => ?_, fun h => ?_⟩
  · unfold american_to_implied; exact if_pos h
  · unfold american_to_implied; exact if_neg (not_lt.mpr h)
  · unfold american_to_implied
    rcases lt_or_le o 0 with hneg | hpos
    · rw [if_pos hneg]
      constructor
      · exact div_pos (by linarith) (by linarith)
      · rw [div_lt_one (by linarith)]; linarith
    · rw [if_neg (not_lt.mpr hpos)]
      have hpos2 : 0 < o := lt_of_le_of_ne hpos (Ne.symm h)
      constructor
      · exact div_pos (by norm_num) (by linarith)
      · rw [div_lt_one (by linarith)]; linarith

/-- Witness for C6 at the concrete odds -150. -/
theorem american_to_implied_spec_witness :
    american_to_implied (-150) = (-(-150 : ℚ)) / ((-(-150 : ℚ)) + 100) ∧
    0 < american_to_implied (-150) ∧ american_to_implied (-150) < 1 :=
  ⟨(american_to_implied_spec (-150)).1 (by norm_num),
   (american_to_implied_spec (-150)).2.2 (by norm_num)⟩

/-- C4: the run-line derivation picks the favorite handicap with confidence
edgeToConfidence(p - 0.5) when p is at least 0.62, and otherwise the underdog
cushion with confidence max(2, edgeToConfidence(0.62 - p) - 1). -/
theorem pick_runline_spec (fav_prob_nv : ℚ) :
    (0.62 ≤ fav_prob_nv →
      pick_runline_from_market fav_prob_nv =
        ("FAV -1.5", edge_to_conf_1_10 (fav_prob_nv - 0.5))) ∧
    (fav_prob_nv < 0.62 →
      pick_runline_from_market fav_prob_nv =
        ("DOG +1.5", max 2 (edge_to_conf_1_10 (0.62 - fav_prob_nv) - 1))) := by
  constructor <;> intro h <;> unfold pick_runline_from_market
  · exact if_pos h
  · exact if_neg (not_le.mpr h)

/-- Witness for C4 at the concrete favorite probability 0.65. -/
theorem pick_runline_spec_witness :
    (0.62 : ℚ) ≤ 0.65 ∧
    pick_runline_from_market 0.65 = ("FAV -1.5", edge_to_conf_1_10 (0.65 - 0.5)) :=
  ⟨by norm_num, (pick_runline_spec 0.65).1 (by norm_num)⟩

/-- C3: the moneyline derivation returns the side with the higher no-vig
probability, with confidence edgeToConfidence(|sideProb - 0.5|) and that
side's no-vig probability. -/
theorem pick_moneyline_spec (ml_home ml_away : ℚ) :
    (pick_moneyline_from_market ml_home ml_away).2.2 =
      max (remove_vig (american_to_implied ml_home) (american_to_implied ml_away)).1
        (remove_vig (american_to_implied ml_home) (american_to_implied ml_away)).2 ∧
    (pick_moneyline_from_market ml_home ml_away).2.1 =
      edge_to_conf_1_10 |(pick_moneyline_from_market ml_home ml_away).2.2 - 0.5| ∧
    ((remove_vig (american_to_implied ml_home) (american_to_implied ml_away)).2 <
        (remove_vig (american_to_implied ml_home) (american_to_implied ml_away)).1 →
      (pick_moneyline_from_market ml_home ml_away).1 = "HOME ML") ∧
    ((remove_vig (american_to_implied ml_home) (american_to_implied ml_away)).1 <
        (remove_vig (american_to_implied ml_home) (american_to_implied ml_away)).2 →
      (pick_moneyline_from_market ml_home ml_away).1 = "AWAY ML") := by
  rcases le_or_lt (remove_vig (american_to_implied ml_home) (american_to_implied ml_away)).2
    (remove_vig (american_to_implied ml_home) (american_to_implied ml_away)).1 with h | h
  · rw [pick_moneyline_eq_home h]
    exact ⟨(max_eq_left h).symm, rfl, fun _ => rfl,
      fun hlt => absurd h (not_le.mpr hlt)⟩
  · rw [pick_moneyline_eq_away h]
    exact ⟨(max_eq_right (le_of_lt h)).symm, rfl,
      fun hlt => absurd (lt_trans h hlt) (lt_irrefl _), fun _ => rfl⟩

/-- Witness for C3: the spec scenario home=-150, away=+130 gives the pick
"HOME ML" with confidence 5. -/
theorem pick_moneyline_spec_witness :
    (pick_moneyline_from_market (-150) 130).1 = "HOME ML" ∧
    (pick_moneyline_from_market (-150) 130).2.1 = 5 := by
  have h := pick_moneyline_spec (-150) 130
  constructor
  · exact h.2.2.1 (by norm_num [remove_vig, american_to_implied])
  · rw [h.2.1, h.1]
    norm_num [remove_vig, american_to_implied, edge_to_conf_1_10, pyRound,
      abs_of_nonneg]

/-- C10 (implicit): a no-vig tie resolves to the home side with confidence 3
and favorite probability 0.5, and the away side is returned only when its
no-vig probability is strictly greater than the home side's. -/
theorem pick_moneyline_tie_goes_home (ml_home ml_away : ℚ) :
    ((remove_vig (american_to_implied ml_home) (american_to_implied ml_away)).1 =
        (remove_vig (american_to_implied ml_home) (american_to_implied ml_away)).2 →
      pick_moneyline_from_market ml_home ml_away = ("HOME ML", 3, 0.5)) ∧
    ((pick_moneyline_from_market ml_home ml_away).1 = "AWAY ML" →
      (remove_vig (american_to_implied ml_home) (american_to_implied ml_away)).1 <
        (remove_vig (american_to_implied ml_home) (american_to_implied ml_away)).2) := by
  constructor
  · intro htie
    have hhalf := remove_vig_tie_half _ _ htie
    rw [pick_moneyline_eq_home (le_of_eq htie.symm), hhalf]
    norm_num [edge_to_conf_1_10, pyRound]
  · intro hml
    by_contra hnot
    push_neg at hnot
    rw [pick_moneyline_eq_home hnot] at hml
    simp at hml

/-- Witness for C10 at the concrete tied market of -110 on both sides. -/
theorem pick_moneyline_tie_goes_home_witness :
    (remove_vig (american_to_implied (-110)) (american_to_implied (-110))).1 =
      (remove_vig (american_to_implied (-110)) (american_to_implied (-110))).2 ∧
    pick_moneyline_from_market (-110) (-110) = ("HOME ML", 3, 0.5) := by
  have h := pick_moneyline_tie_goes_home (-110) (-110)
  have hc : (remove_vig (american_to_implied (-110)) (american_to_implied (-110))).1 =
      (remove_vig (american_to_implied (-110)) (american_to_implied (-110))).2 := by
    norm_num [remove_vig, american_to_implied]
  exact ⟨hc, h.1 hc⟩

/-- C5: the total derivation emits the neutral "No Edge" pick with confidence 2
when the no-vig edge is below 0.02, and otherwise the side with the higher
no-vig probability with confidence edgeToConfidence(edge). -/
theorem pick_total_spec (total_num over_price under_price : ℚ) :
    (|(remove_vig (american_to_implied over_price) (american_to_implied under_price)).1 - 0.5|
        < 0.02 →
      pick_total_from_market total_num over_price under_price = (TotalPick.noEdge, 2)) ∧
    (0.02 ≤
        |(remove_vig (american_to_implied over_price) (american_to_implied under_price)).1 - 0.5| →
      ((remove_vig (american_to_implied over_price) (american_to_implied under_price)).2 <
          (remove_vig (american_to_implied over_price) (american_to_implied under_price)).1 →
        pick_total_from_market total_num over_price under_price =
          (TotalPick.over total_num,
           edge_to_conf_1_10
             |(remove_vig (american_to_implied over_price) (american_to_implied under_price)).1
               - 0.5|)) ∧
      ((remove_vig (american_to_implied over_price) (american_to_implied under_price)).1 <
          (remove_vig (american_to_implied over_price) (american_to_implied under_price)).2 →
        pick_total_from_market total_num over_price under_price =
          (TotalPick.under total_num,
           edge_to_conf_1_10
             |(remove_vig (american_to_implied over_price) (american_to_implied under_price)).1
               - 0.5|))) := by
  constructor
  · intro h
    simp only [pick_total_from_market]
    rw [if_pos h]
  · intro h
    constructor <;> intro h2 <;> simp only [pick_total_from_market]
    · rw [if_neg (not_lt.mpr h), if_pos h2]
    · rw [if_neg (not_lt.mpr h), if_neg (not_lt.mpr (le_of_lt h2))]

/-- Witness for C5: the spec scenario total=8.5 with -110 prices on both sides
has edge 0 below the threshold and yields the neutral pick with confidence 2. -/
theorem pick_total_spec_witness :
    |(remove_vig (american_to_implied (-110)) (american_to_implied (-110))).1 - 0.5| < 0.02 ∧
    pick_total_from_market 8.5 (-110) (-110) = (TotalPick.noEdge, 2) := by
  have h := pick_total_spec 8.5 (-110) (-110)
  have hc : |(remove_vig (american_to_implied (-110)) (american_to_implied (-110))).1 - 0.5|
      < 0.02 := by
    norm_num [remove_vig, american_to_implied]
  exact ⟨hc, h.1 hc⟩

/-- C8: team normalization is idempotent, and every canonical code in the
alias table normalizes to itself. -/
theorem normalize_team_idempotent (x : String) :
    normalize_team (normalize_team x) = normalize_team x ∧
    (∀ p ∈ aliasTable, normalize_team p.2 = p.2) := by
  refine ⟨?_, normalize_fix_vals⟩
  by_cases ht : x = ""
  · rw [ht]
    simp [normalize_team]
  · rw [normalize_team_eq x ht]
    rcases hl : aliasTable.lookup (String.mk (pyUpper (pyStrip x.data))) with _ | v
    · simp only [Option.getD_none]
      by_cases hu : String.mk (pyUpper (pyStrip x.data)) = ""
      · rw [hu]
        simp [normalize_team]
      · rw [normalize_team_eq _ hu]
        have hkey : String.mk (pyUpper (pyStrip (String.mk (pyUpper (pyStrip x.data))).data)) =
            String.mk (pyUpper (pyStrip x.data)) := by
          show String.mk (pyUpper (pyStrip (pyUpper (pyStrip x.data)))) = _
          rw [pyStrip_pyUpper_pyStrip, pyUpper_idem]
        rw [hkey, hl]
        rfl
    · simp only [Option.getD_some]
      have hmem : (String.mk (pyUpper (pyStrip x.data)), v) ∈ aliasTable := by
        rcases List.lookup_eq_some_iff.mp hl with ⟨l₁, l₂, heq, -⟩
        rw [heq]
        exact List.mem_append_right _ (List.mem_cons_self _ _)
      exact normalize_fix_vals _ hmem

/-- Witness for C8: a lowercase alias and a canonical code. -/
theorem normalize_team_idempotent_witness :
    normalize_team (normalize_team "ari") = normalize_team "ari" ∧
    normalize_team "AZ" = "AZ" := by
  have h := normalize_team_idempotent "ari"
  exact ⟨h.1, h.2 ("AZ", "AZ") (by decide)⟩

/-- C2: with the slate authoritative (its Game Keys pairwise distinct, per the
data-model invariant), the join emits exactly one prediction row per slate
entry whatever the odds rows are; every output row carries a slate key (no
stray rows), and a slate entry no market quote matches yields a row with
empty market fields and empty picks. -/
theorem ingest_join_spec (slateCsv : List SlateCsvRow) (oddsCsv : List OddsCsvRow)
    (hnd : (slateCsv.map slateKey).Nodup) :
    (ingest_odds_and_compute_picks slateCsv oddsCsv).length = slateCsv.length ∧
    (∀ r ∈ ingest_odds_and_compute_picks slateCsv oddsCsv,
      ∃ s ∈ slateCsv, predKey r = slateKey s) ∧
    (∀ s ∈ slateCsv,
      (ingest_odds_and_compute_picks slateCsv oddsCsv).countP
        (fun r => predKey r == slateKey s) = 1) ∧
    (∀ s ∈ slateCsv,
      (∀ o ∈ oddsCsv, ∀ kv, parseOddsRow o = some kv → kv.1 ≠ slateKey s) →
      ∀ r ∈ ingest_odds_and_compute_picks slateCsv oddsCsv,
        predKey r = slateKey s →
        r.ml_home = none ∧ r.ml_away = none ∧ r.total = none ∧
        r.pick_ml = "" ∧ r.conf_ml = none ∧ r.pick_tot = none ∧
        r.conf_tot = none ∧ r.pick_rl = "" ∧ r.conf_rl = none) := by
  have hout := ingest_eq_map slateCsv oddsCsv hnd
  refine ⟨?_, ?_, ?_, ?_⟩
  · rw [hout, List.length_map]
  · intro r hr
    rw [hout] at hr
    rcases List.mem_map.mp hr with ⟨s, hs, rfl⟩
    exact ⟨s, hs, predKey_joinRow _ _⟩
  · intro s hs
    rw [hout, List.countP_map]
    have hc : ∀ x ∈ slateCsv,
        ((fun r => predKey r == slateKey s) ∘ (fun s2 =>
          joinRow (loadSlateRow s2)
            (List.lookup (slateKey s2) (odds_by_key oddsCsv)))) x = true ↔
        (fun x => slateKey x == slateKey s) x = true := by
      intro x _
      simp only [Function.comp_apply, beq_iff_eq, predKey_joinRow, slateKey]
    rw [List.countP_congr hc]
    exact countP_key_eq_one slateKey slateCsv hnd s hs
  · intro s hs hq r hr hkey
    rw [hout] at hr
    rcases List.mem_map.mp hr with ⟨s2, hs2, rfl⟩
    have hk2 : slateKey s2 = slateKey s := by
      have hj : slateKey s2 = predKey (joinRow (loadSlateRow s2)
          (List.lookup (slateKey s2) (odds_by_key oddsCsv))) :=
        (predKey_joinRow _ _).symm
      rw [hj]
      exact hkey
    have hnone : List.lookup (slateKey s2) (odds_by_key oddsCsv) = none := by
      rw [hk2]
      exact odds_by_key_lookup_none oddsCsv (slateKey s) hq
    rw [hnone]
    exact ⟨rfl, rfl, rfl, rfl, rfl, rfl, rfl, rfl, rfl⟩

/-- Witness for C2: the spec scenario where the odds file has no row for the
slate key; one row is still emitted and its market fields and picks are empty. -/
theorem ingest_join_spec_witness :
    (ingest_odds_and_compute_picks [wSlateRow] [wOddsRow]).length = 1 ∧
    ∀ r ∈ ingest_odds_and_compute_picks [wSlateRow] [wOddsRow],
      r.ml_home = none ∧ r.pick_ml = "" := by
  have h := ingest_join_spec [wSlateRow] [wOddsRow] (by decide)
  refine ⟨h.1, ?_⟩
  intro r hr
  have hq : ∀ o ∈ [wOddsRow], ∀ kv : String × OddsData,
      parseOddsRow o = some kv → kv.1 ≠ slateKey wSlateRow := by
    intro o ho kv hkv
    rw [List.mem_singleton] at ho
    subst ho
    have hnone : parseOddsRow wOddsRow = none := by decide
    rw [hnone] at hkv
    exact Option.noConfusion hkv
  have hkey : predKey r = slateKey wSlateRow := by
    rcases h.2.1 r hr with ⟨s, hsmem, hks⟩
    rw [List.mem_singleton] at hsmem
    subst hsmem
    exact hks
  have h4 := h.2.2.2 wSlateRow (List.mem_singleton.mpr rfl) hq r hr hkey
  exact ⟨h4.1, h4.2.2.2.1⟩
